import Mathlib

/-!
Shallow embedding of the `requestsservice` repository (files
`services.py`, `client.py`, `sessions.py`, `exceptions.py`) and proofs
about the claims of its specification.

Modelling conventions, used consistently below:

* Python strings are `List Char`; Python `str.find` returning `-1` is
  `Option Nat` returning `none`; `str.replace` is `replaceAll`;
  `s[a:b]` is `pySlice`.
* A Python `dict` is an association list; `dict.get` is `dictGet`
  (assignment conses in front, lookup takes the first hit, which matches
  dict overwrite visibility).  Values of path-parameter dicts are
  `Option (List Char)`: `none` models the Python value `None`, `some v`
  models a value whose `str()` form is `v`.
* An uncaught Python exception (here: only `IndexError` from indexing an
  empty string) is modelled by `Option`/dedicated result constructors.
* The unbounded `while` loop of `_build_url` genuinely diverges on some
  inputs (an unmatched `{`, or substituted values that keep introducing
  placeholders), so it is embedded with an explicit fuel argument;
  `none` / `.noFuel` means the loop did not finish within the given
  fuel.  When `url.find('does-not-occur')` fails to locate a closing
  brace the Python loop provably never terminates (the replaced slice is
  the empty string, which never removes the offending `{`), so that
  branch is mapped to `none` directly.
* `requests.Session()` object identity is modelled by allocating a fresh
  natural number from a counter carried in the cache state.
-/

/-! ### Python string and dict primitives -/

/-- Python `s.find(x)`: index of the first occurrence of `x`, `none` for `-1`. -/
def pyFind (x : Char) : List Char → Option Nat
  | [] => none
  | c :: s => if c = x then some 0 else (pyFind x s).map (fun n => n + 1)

/-- Python `s.find(x, start)`: first occurrence at an index `≥ start`. -/
def pyFindFrom (x : Char) (s : List Char) (start : Nat) : Option Nat :=
  (pyFind x (s.drop start)).map (fun n => n + start)

/-- Python slice `s[a:b]` (for `0 ≤ a ≤ b`). -/
def pySlice (s : List Char) (a b : Nat) : List Char :=
  (s.drop a).take (b - a)

/-- Python `dict.get`: first binding of the key, `none` when absent. -/
def dictGet {α β : Type} [DecidableEq α] : List (α × β) → α → Option β
  | [], _ => none
  | p :: ps, k => if p.1 = k then some p.2 else dictGet ps k

/-- Fuel-driven worker for Python `str.replace`: replaces every
non-overlapping occurrence of `pat`, scanning left to right.  Fuel at
least `s.length` makes the fuel irrelevant (`replaceAllF_fuel`). -/
def replaceAllF (pat rep : List Char) : Nat → List Char → List Char
  | 0, s => s
  | _ + 1, [] => []
  | fuel + 1, c :: s =>
    if pat ≠ [] ∧ pat.isPrefixOf (c :: s) then
      rep ++ replaceAllF pat rep fuel ((c :: s).drop pat.length)
    else
      c :: replaceAllF pat rep fuel s

/-- Python `s.replace(pat, rep)` for a non-empty `pat`. -/
def replaceAll (pat rep s : List Char) : List Char :=
  replaceAllF pat rep s.length s

/-! ### Data passed through to the `requests` transport -/

/-- Timeout values: a scalar or a `(connect, read)` pair, as accepted by
`requests`.  Python truthiness: the scalar `0` is falsy, a pair (a
non-empty tuple) is always truthy. -/
inductive Timeout : Type
  | scalar (n : Nat)
  | pair (connect read : Nat)
  deriving DecidableEq

/-- Python truthiness of a timeout value. -/
def Timeout.truthy : Timeout → Bool
  | .scalar n => n ≠ 0
  | .pair _ _ => true

abbrev Query := List (List Char × List Char)
abbrev BodyData := List Char
abbrev Headers := List (List Char × List Char)
abbrev Auth := List Char
abbrev Params := List (List Char × Option (List Char))

/-- A `requests` Response: status code plus opaque payload. -/
structure Response : Type where
  status_code : Nat
  body : List Char
  deriving DecidableEq

/-- The argument tuple passed to `requestor.request(...)` by `make_request`. -/
structure RequestArgs : Type where
  method : String
  url : List Char
  params : Option Query
  data : Option BodyData
  headers : Option Headers
  timeout : Option Timeout
  auth : Option Auth
  deriving DecidableEq

/-- `timeout if timeout else self._timeout` from `make_request` (both
files): `None` and the falsy scalar `0` fall back to the default. -/
def resolveTimeout (timeout dflt : Option Timeout) : Option Timeout :=
  match timeout with
  | none => dflt
  | some t => if t.truthy then some t else dflt

/-- Result of `_build_url` (and of anything that calls it): a url, an
uncaught `IndexError`, or a run out of fuel (non-termination within the
given bound). -/
inductive BuildResult : Type
  | ok (url : List Char)
  | indexError
  | noFuel
  deriving DecidableEq

/-! ### `services.py` -/

namespace Svc

/-- `exceptions.py`: `ServiceException`, wrapping the full response. -/
structure ServiceException : Type where
  response : Response
  deriving DecidableEq

/-- State of an `HttpService` instance after `__init__`. -/
structure ServiceState : Type where
  url_root : List Char
  session : Option Nat
  auth : Option Auth
  timeout : Option Timeout
  deriving DecidableEq

/-- The `url_root` property setter: `value if value[-1] == '/' else
'%s/' % value`.  Indexing `value[-1]` on the empty string raises
`IndexError`, modelled by `none`. -/
def url_root_set (value : List Char) : Option (List Char) :=
  match value.getLast? with
  | none => none
  | some c => some (if c = '/' then value else value ++ ['/'])

/-- `HttpService.__init__`: runs the `url_root` setter and stores the
session (`none` models the stateless `requests.request` fallback),
auth and default timeout. -/
def mkService (url_root : List Char) (session : Option Nat) (auth : Option Auth)
    (timeout : Option Timeout) : Option ServiceState :=
  match url_root_set url_root with
  | none => none
  | some r => some ⟨r, session, auth, timeout⟩

/-- The leading-slash strip and trailing-slash append of `_build_url`:
`if path: (strip leading '/'; if path[-1] != '/' and path.find('?') ==
-1: path += '/')`.  When the strip leaves the empty string, `path[-1]`
raises `IndexError` (`none`). -/
def normalizePath (path : List Char) : Option (List Char) :=
  match path with
  | [] => some []
  | c :: rest =>
    let p := if c = '/' then rest else c :: rest
    match p.getLast? with
    | none => none
    | some lastc => some (if lastc ≠ '/' ∧ pyFind '?' p = none then p ++ ['/'] else p)

/-- `str(path_params.get(key))`: an absent key and a key bound to `None`
both print as the four-character string `None`. -/
def paramStr (path_params : Params) (key : List Char) : List Char :=
  match dictGet path_params key with
  | none => ['N', 'o', 'n', 'e']
  | some none => ['N', 'o', 'n', 'e']
  | some (some v) => v

/-- The `while start >= 0` substitution loop of `_build_url`.  One fuel
unit is spent per iteration; `none` means the loop did not finish (the
missing-`}` branch never terminates in Python, see the module header). -/
def substLoop (path_params : Params) : Nat → List Char → Option (List Char)
  | 0, _ => none
  | fuel + 1, url =>
    match pyFind '{' url with
    | none => some url
    | some start =>
      match pyFindFrom '}' url start with
      | none => none
      | some stop =>
        let pat := pySlice url start (stop + 1)
        let param := paramStr path_params ((pat.drop 1).dropLast)
        let rep := if param ≠ [] then param else []
        substLoop path_params fuel (replaceAll pat rep url)

/-- Wrapper turning the loop's options into a `BuildResult`. -/
def substOutcome (path_params : Params) (fuel : Nat) (url : List Char) : BuildResult :=
  match substLoop path_params fuel url with
  | none => .noFuel
  | some u => .ok u

/-- `HttpService._build_url`: normalize the path, concatenate it onto
the (already slash-terminated) root, then run the substitution loop. -/
def build_url (fuel : Nat) (url_root path : List Char) (path_params : Params) :
    BuildResult :=
  match normalizePath path with
  | none => .indexError
  | some p => substOutcome path_params fuel (url_root ++ p)

/-- The keyword arguments `make_request` hands to
`self._requestor.request(...)`: the built url, the pass-through query
parameters, body, headers, the resolved timeout and the bound auth. -/
def mkArgs (c : ServiceState) (method : String) (url : List Char)
    (query_params : Option Query) (data : Option BodyData) (headers : Option Headers)
    (timeout : Option Timeout) : RequestArgs :=
  ⟨method, url, query_params, data, headers, resolveTimeout timeout c.timeout, c.auth⟩

/-- Result of `HttpService.make_request`: a returned response, a raised
`ServiceException`, or one of the two non-returning outcomes of
`_build_url`. -/
inductive ReqResult : Type
  | ok (res : Response)
  | err (e : ServiceException)
  | indexError
  | noFuel
  deriving DecidableEq

/-- `HttpService.make_request`.  The transport (`session.request` or the
stateless `requests.request`) is the function argument `requestor`;
`path_params if path_params else {}` is the identity on association
lists, Python `None` being modelled by `[]`. -/
def make_request (fuel : Nat) (c : ServiceState) (requestor : RequestArgs → Response)
    (method : String) (path : List Char) (path_params : Params)
    (query_params : Option Query) (data : Option BodyData) (headers : Option Headers)
    (timeout : Option Timeout) (raise_exception : Bool) : ReqResult :=
  match build_url fuel c.url_root path path_params with
  | .indexError => .indexError
  | .noFuel => .noFuel
  | .ok url =>
    let res := requestor (mkArgs c method url query_params data headers timeout)
    if 300 ≤ res.status_code ∧ raise_exception = true then .err ⟨res⟩ else .ok res

/-- `HttpService.get`: no body, no per-call timeout. -/
def get (fuel : Nat) (c : ServiceState) (requestor : RequestArgs → Response)
    (path : List Char) (path_params : Params) (query_params : Option Query)
    (headers : Option Headers) (raise_exception : Bool) : ReqResult :=
  make_request fuel c requestor "GET" path path_params query_params none headers
    none raise_exception

/-- `HttpService.post`: body, no query parameters, no per-call timeout. -/
def post (fuel : Nat) (c : ServiceState) (requestor : RequestArgs → Response)
    (path : List Char) (path_params : Params) (data : Option BodyData)
    (headers : Option Headers) (raise_exception : Bool) : ReqResult :=
  make_request fuel c requestor "POST" path path_params none data headers
    none raise_exception

/-- `HttpService.put`. -/
def put (fuel : Nat) (c : ServiceState) (requestor : RequestArgs → Response)
    (path : List Char) (path_params : Params) (data : Option BodyData)
    (headers : Option Headers) (raise_exception : Bool) : ReqResult :=
  make_request fuel c requestor "PUT" path path_params none data headers
    none raise_exception

/-- `HttpService.patch`. -/
def patch (fuel : Nat) (c : ServiceState) (requestor : RequestArgs → Response)
    (path : List Char) (path_params : Params) (data : Option BodyData)
    (headers : Option Headers) (raise_exception : Bool) : ReqResult :=
  make_request fuel c requestor "PATCH" path path_params none data headers
    none raise_exception

/-- `HttpService.delete`: no query parameters, no body, no per-call timeout. -/
def delete (fuel : Nat) (c : ServiceState) (requestor : RequestArgs → Response)
    (path : List Char) (path_params : Params) (headers : Option Headers)
    (raise_exception : Bool) : ReqResult :=
  make_request fuel c requestor "DELETE" path path_params none none headers
    none raise_exception

/-! ### `sessions.py` and the factory of `services.py` -/

/-- The process-wide `SessionCache.__sessions` dict plus an allocation
counter standing in for `requests.Session()` object identity: every
session ever created carries a distinct `Nat`. -/
structure CacheState : Type where
  sessions : List (String × Nat)
  nextId : Nat
  deriving DecidableEq

/-- `SessionCache.get`. -/
def cacheGet (st : CacheState) (name : String) : Option Nat :=
  dictGet st.sessions name

/-- `SessionCache.set`. -/
def cacheSet (st : CacheState) (name : String) (session : Nat) : CacheState :=
  ⟨(name, session) :: st.sessions, st.nextId⟩

/-- `HttpServiceFactory.make_service`, keyed by `cls.__name__`: reuse
the cached session or create (allocate) a fresh one, cache it, then
construct `HttpService(cls.service_root, session, auth)` — note the
constructor call passes no timeout. -/
def make_service (name : String) (service_root : List Char) (auth : Option Auth)
    (st : CacheState) : Option ServiceState × CacheState :=
  match cacheGet st name with
  | some s => (mkService service_root (some s) auth none, st)
  | none =>
    let s := st.nextId
    let st' := cacheSet ⟨st.sessions, st.nextId + 1⟩ name s
    (mkService service_root (some s) auth none, st')

/-- The class-level default `service_root = ''` of `HttpServiceFactory`. -/
def factoryDefaultRoot : List Char := []

end Svc

/-! ### `client.py`

`client.py` duplicates the request logic of `services.py` almost
verbatim (only the exception class is named differently).  It is
transcribed separately here so that the duplication claim can be settled
by comparing the two transcriptions. -/

namespace Cli

/-- `client.py`: `HttpClientException`, wrapping the full response. -/
structure HttpClientException : Type where
  response : Response
  deriving DecidableEq

/-- State of an `HttpClient` instance after `__init__`. -/
structure ClientState : Type where
  url_root : List Char
  session : Option Nat
  auth : Option Auth
  timeout : Option Timeout
  deriving DecidableEq

/-- `HttpClient`'s `url_root` property setter (same text as the
`HttpService` one). -/
def url_root_set (value : List Char) : Option (List Char) :=
  match value.getLast? with
  | none => none
  | some c => some (if c = '/' then value else value ++ ['/'])

/-- `HttpClient.__init__`. -/
def mkClient (url_root : List Char) (session : Option Nat) (auth : Option Auth)
    (timeout : Option Timeout) : Option ClientState :=
  match url_root_set url_root with
  | none => none
  | some r => some ⟨r, session, auth, timeout⟩

/-- Slash normalization of `HttpClient._build_url`. -/
def normalizePath (path : List Char) : Option (List Char) :=
  match path with
  | [] => some []
  | c :: rest =>
    let p := if c = '/' then rest else c :: rest
    match p.getLast? with
    | none => none
    | some lastc => some (if lastc ≠ '/' ∧ pyFind '?' p = none then p ++ ['/'] else p)

/-- `str(path_params.get(key))` in `HttpClient._build_url`. -/
def paramStr (path_params : Params) (key : List Char) : List Char :=
  match dictGet path_params key with
  | none => ['N', 'o', 'n', 'e']
  | some none => ['N', 'o', 'n', 'e']
  | some (some v) => v

/-- The substitution loop of `HttpClient._build_url`. -/
def substLoop (path_params : Params) : Nat → List Char → Option (List Char)
  | 0, _ => none
  | fuel + 1, url =>
    match pyFind '{' url with
    | none => some url
    | some start =>
      match pyFindFrom '}' url start with
      | none => none
      | some stop =>
        let pat := pySlice url start (stop + 1)
        let param := paramStr path_params ((pat.drop 1).dropLast)
        let rep := if param ≠ [] then param else []
        substLoop path_params fuel (replaceAll pat rep url)

/-- Wrapper turning the loop's options into a `BuildResult`. -/
def substOutcome (path_params : Params) (fuel : Nat) (url : List Char) : BuildResult :=
  match substLoop path_params fuel url with
  | none => .noFuel
  | some u => .ok u

/-- `HttpClient._build_url`. -/
def build_url (fuel : Nat) (url_root path : List Char) (path_params : Params) :
    BuildResult :=
  match normalizePath path with
  | none => .indexError
  | some p => substOutcome path_params fuel (url_root ++ p)

/-- The keyword arguments `HttpClient.make_request` hands to the transport. -/
def mkArgs (c : ClientState) (method : String) (url : List Char)
    (query_params : Option Query) (data : Option BodyData) (headers : Option Headers)
    (timeout : Option Timeout) : RequestArgs :=
  ⟨method, url, query_params, data, headers, resolveTimeout timeout c.timeout, c.auth⟩

/-- Result of `HttpClient.make_request`. -/
inductive ReqResult : Type
  | ok (res : Response)
  | err (e : HttpClientException)
  | indexError
  | noFuel
  deriving DecidableEq

/-- `HttpClient.make_request`. -/
def make_request (fuel : Nat) (c : ClientState) (requestor : RequestArgs → Response)
    (method : String) (path : List Char) (path_params : Params)
    (query_params : Option Query) (data : Option BodyData) (headers : Option Headers)
    (timeout : Option Timeout) (raise_exception : Bool) : ReqResult :=
  match build_url fuel c.url_root path path_params with
  | .indexError => .indexError
  | .noFuel => .noFuel
  | .ok url =>
    let res := requestor (mkArgs c method url query_params data headers timeout)
    if 300 ≤ res.status_code ∧ raise_exception = true then .err ⟨res⟩ else .ok res

/-- `HttpClient.get`. -/
def get (fuel : Nat) (c : ClientState) (requestor : RequestArgs → Response)
    (path : List Char) (path_params : Params) (query_params : Option Query)
    (headers : Option Headers) (raise_exception : Bool) : ReqResult :=
  make_request fuel c requestor "GET" path path_params query_params none headers
    none raise_exception

/-- `HttpClient.post`. -/
def post (fuel : Nat) (c : ClientState) (requestor : RequestArgs → Response)
    (path : List Char) (path_params : Params) (data : Option BodyData)
    (headers : Option Headers) (raise_exception : Bool) : ReqResult :=
  make_request fuel c requestor "POST" path path_params none data headers
    none raise_exception

/-- `HttpClient.put`. -/
def put (fuel : Nat) (c : ClientState) (requestor : RequestArgs → Response)
    (path : List Char) (path_params : Params) (data : Option BodyData)
    (headers : Option Headers) (raise_exception : Bool) : ReqResult :=
  make_request fuel c requestor "PUT" path path_params none data headers
    none raise_exception

/-- `HttpClient.patch`. -/
def patch (fuel : Nat) (c : ClientState) (requestor : RequestArgs → Response)
    (path : List Char) (path_params : Params) (data : Option BodyData)
    (headers : Option Headers) (raise_exception : Bool) : ReqResult :=
  make_request fuel c requestor "PATCH" path path_params none data headers
    none raise_exception

/-- `HttpClient.delete`. -/
def delete (fuel : Nat) (c : ClientState) (requestor : RequestArgs → Response)
    (path : List Char) (path_params : Params) (headers : Option Headers)
    (raise_exception : Bool) : ReqResult :=
  make_request fuel c requestor "DELETE" path path_params none none headers
    none raise_exception

end Cli

/-- Constructor-wise renaming of a `services.py` request result into a
`client.py` one: only the exception type's name changes. -/
def relabel : Svc.ReqResult → Cli.ReqResult
  | .ok res => .ok res
  | .err e => .err ⟨e.response⟩
  | .indexError => .indexError
  | .noFuel => .noFuel

/-! ### Auxiliary predicates used in claim statements -/

/-- Brace scanner: in state `false` (outside a placeholder) a `{` opens
a placeholder; in state `true` (inside) the first `}` closes it and a
second `{` before the closing `}` is rejected.  A stray `}` outside a
placeholder is harmless to the substitution loop and accepted. -/
def scanBraced : Bool → List Char → Bool
  | false, [] => true
  | false, c :: s => if c = '{' then scanBraced true s else scanBraced false s
  | true, [] => false
  | true, c :: s =>
    if c = '}' then scanBraced false s
    else if c = '{' then false else scanBraced true s

/-- Every `{` in the string is followed by a matching `}` (no other
brace in between): the hypothesis of the termination claim. -/
def wellBraced (s : List Char) : Bool := scanBraced false s

/-- No substituted parameter value contains `{`: the other hypothesis of
the termination claim. -/
def paramsNoBrace (path_params : Params) : Bool :=
  path_params.all fun p =>
    match p.2 with
    | some v => !(v.contains '{')
    | none => true

/-- Modelled from the claim's wording: "a single leading `/` is
stripped". -/
def claimStrip (path : List Char) : List Char :=
  match path with
  | [] => []
  | c :: rest => if c = '/' then rest else c :: rest

/-- Modelled from the claim's wording: "a trailing `/` is appended
exactly when the (stripped) path is non-empty, does not already end
with `/`, and contains no literal `?`". -/
def claimNorm (path : List Char) : List Char :=
  let p := claimStrip path
  if p ≠ [] ∧ p.getLast? ≠ some '/' ∧ '?' ∉ p then p ++ ['/'] else p

/-- Invariant of the session cache: distinct type names map to distinct
sessions and every cached session was allocated below the counter.
It holds for the initial empty cache and is preserved by the factory. -/
def CacheInv (st : Svc.CacheState) : Prop :=
  (∀ p ∈ st.sessions, p.2 < st.nextId) ∧
    (∀ p ∈ st.sessions, ∀ q ∈ st.sessions, p.1 ≠ q.1 → p.2 ≠ q.2)

instance (st : Svc.CacheState) : Decidable (CacheInv st) := by
  unfold CacheInv; infer_instance

/-! ### General lemmas about the primitives -/

theorem pyFind_eq_none {x : Char} {s : List Char} : pyFind x s = none ↔ x ∉ s := by
  induction s with
  | nil => simp [pyFind]
  | cons c s ih =>
    by_cases hc : c = x
    · subst hc; simp [pyFind]
    · simp [pyFind, hc, Option.map_eq_none', ih, List.mem_cons, Ne.symm hc]

theorem dictGet_mem {α β : Type} [DecidableEq α] {l : List (α × β)} {k : α} {v : β}
    (h : dictGet l k = some v) : (k, v) ∈ l := by
  induction l with
  | nil => simp [dictGet] at h
  | cons p ps ih =>
    obtain ⟨a, b⟩ := p
    by_cases hp : a = k
    · simp [dictGet, hp] at h
      subst hp
      subst h
      exact List.mem_cons_self _ _
    · simp [dictGet, hp] at h
      exact List.mem_cons_of_mem _ (ih h)

theorem getLast?_some_of_ne_nil {s : List Char} (h : s ≠ []) : ∃ c, s.getLast? = some c := by
  cases hg : s.getLast? with
  | none => exact absurd (List.getLast?_eq_none_iff.mp hg) h
  | some c => exact ⟨c, rfl⟩

theorem mkService_of_ne_nil {r : List Char} (h : r ≠ []) (sess : Option Nat)
    (a : Option Auth) (t : Option Timeout) :
    ∃ cs, Svc.mkService r sess a t = some cs ∧ cs.session = sess := by
  obtain ⟨c, hg⟩ := getLast?_some_of_ne_nil h
  refine ⟨⟨if c = '/' then r else r ++ ['/'], sess, a, t⟩, ?_, rfl⟩
  simp [Svc.mkService, Svc.url_root_set, hg]

/-! ### Claim C1 -/

/-- C1: the claim states that a `\x7bname\x7d` placeholder whose name is
absent from the mapping (or mapped to `None`) is replaced by the empty
string, so that root `http://svc/` with template `/x/{id}/` and no
parameters yields `http://svc/x//`.  The code instead substitutes the
literal string `None`: `str(path_params.get(key))` turns the missing
value into the truthy string `None` before the `param if param else ''`
guard can see the falsy `None` value, so the guard is dead code and the
result is `http://svc/x/None/`. -/
theorem c1_missing_param_substitutes_None_string :
    Svc.build_url 3 ("http://svc/").toList ("/x/{id}/").toList [] =
      .ok ("http://svc/x/None/").toList ∧
    Svc.build_url 3 ("http://svc/").toList ("/x/{id}/").toList [] ≠
      .ok ("http://svc/x//").toList := ⟨by decide, by decide⟩

/-! ### Claim C3 -/

/-- C3, counterexample: at the non-empty path `/` the claim predicts the
pre-substitution url `root ++ claimNorm "/"` (the stripped path is empty
so nothing is appended), i.e. a successful build of `http://svc/`; the
code instead raises `IndexError` when it indexes `path[-1]` on the
stripped-empty path. -/
theorem c3_counterexample :
    Svc.build_url 3 ("http://svc/").toList ['/'] [] ≠
      Svc.substOutcome [] 3 (("http://svc/").toList ++ claimNorm ['/']) := by decide

/-- C3 (amended): for every non-empty path other than the single
separator `/` (equivalently: whose form after stripping one leading
separator is non-empty), `_build_url` strips a single leading `/`,
appends a trailing `/` exactly when the stripped path does not already
end with `/` and contains no literal `?`, and runs substitution on the
root concatenated with this normalized path.  In particular the template
`/search?q={q}` with `q = a` under root `http://svc/` yields
`http://svc/search?q=a` with no added trailing separator. -/
theorem c3_slash_normalization (root path : List Char) (ps : Params) (fuel : Nat)
    (hne : path ≠ []) (hs : claimStrip path ≠ []) :
    Svc.normalizePath path = some (claimNorm path) ∧
    Svc.build_url fuel root path ps =
      Svc.substOutcome ps fuel (root ++ claimNorm path) ∧
    Svc.build_url 2 ("http://svc/").toList ("/search?q={q}").toList
        [(("q").toList, some (("a").toList))] =
      .ok ("http://svc/search?q=a").toList := by
  obtain ⟨c, rest, rfl⟩ : ∃ c rest, path = c :: rest := by
    cases path with
    | nil => exact absurd rfl hne
    | cons c rest => exact ⟨c, rest, rfl⟩
  have hstrip : claimStrip (c :: rest) = if c = '/' then rest else c :: rest := rfl
  have hnorm : Svc.normalizePath (c :: rest) = some (claimNorm (c :: rest)) := by
    obtain ⟨l, hl⟩ := getLast?_some_of_ne_nil (hstrip ▸ hs)
    simp only [Svc.normalizePath, claimNorm, hstrip ▸ hs, hstrip, hl]
    have hmem : pyFind '?' (if c = '/' then rest else c :: rest) = none ↔
        '?' ∉ (if c = '/' then rest else c :: rest) := pyFind_eq_none
    by_cases hq : '?' ∈ (if c = '/' then rest else c :: rest) <;>
      by_cases hsl : l = '/' <;>
        simp_all [hstrip ▸ hs]
  refine ⟨hnorm, ?_, by decide⟩
  simp [Svc.build_url, hnorm]

/-- C3, witness: the amended theorem applied to the claim's own example. -/
theorem c3_slash_normalization_witness :
    ("/search?q={q}").toList ≠ [] ∧ claimStrip (("/search?q={q}").toList) ≠ [] ∧
    (Svc.normalizePath (("/search?q={q}").toList) =
        some (claimNorm (("/search?q={q}").toList)) ∧
      Svc.build_url 2 ("http://svc/").toList ("/search?q={q}").toList
          [(("q").toList, some (("a").toList))] =
        Svc.substOutcome [(("q").toList, some (("a").toList))] 2
          (("http://svc/").toList ++ claimNorm (("/search?q={q}").toList)) ∧
      Svc.build_url 2 ("http://svc/").toList ("/search?q={q}").toList
          [(("q").toList, some (("a").toList))] =
      .ok ("http://svc/search?q=a").toList) :=
  ⟨by decide, by decide,
    c3_slash_normalization ("http://svc/").toList ("/search?q={q}").toList
      [(("q").toList, some (("a").toList))] 2 (by decide) (by decide)⟩

/-! ### Claim C6 -/

/-- C6: the `url_root` setter appends a trailing `/` when the given
(non-empty) root does not end with one, is the identity when it already
does, every stored root ends with `/`, and the normalization is
idempotent. -/
theorem c6_root_trailing_slash (v : List Char) (hv : v ≠ []) :
    ∃ w, Svc.url_root_set v = some w ∧
      (v.getLast? = some '/' → w = v) ∧
      (v.getLast? ≠ some '/' → w = v ++ ['/']) ∧
      w.getLast? = some '/' ∧
      Svc.url_root_set w = some w := by
  obtain ⟨c, hg⟩ := getLast?_some_of_ne_nil hv
  by_cases hc : c = '/'
  · subst hc
    refine ⟨v, ?_, fun _ => rfl, fun h => absurd hg h, hg, ?_⟩
    · simp [Svc.url_root_set, hg]
    · simp [Svc.url_root_set, hg]
  · refine ⟨v ++ ['/'], ?_, ?_, fun _ => rfl, List.getLast?_concat v, ?_⟩
    · simp [Svc.url_root_set, hg, hc]
    · intro h
      simp [hg] at h
      exact absurd h hc
    · simp [Svc.url_root_set, List.getLast?_concat]

/-- C6, witness: constructing with `http://svc` yields `http://svc/`. -/
theorem c6_root_trailing_slash_witness :
    ("http://svc").toList ≠ [] ∧
    ∃ w, Svc.url_root_set ("http://svc").toList = some w ∧
      (("http://svc").toList.getLast? = some '/' → w = ("http://svc").toList) ∧
      (("http://svc").toList.getLast? ≠ some '/' →
        w = ("http://svc").toList ++ ['/']) ∧
      w.getLast? = some '/' ∧
      Svc.url_root_set w = some w :=
  ⟨by decide, c6_root_trailing_slash ("http://svc").toList (by decide)⟩

/-! ### Claim C8 -/

/-- C8, counterexample: the verb shortcuts accept no per-call timeout at
all, and even `make_request`'s override is dropped when it is the falsy
scalar `0`: with client default `(3, 10)` and per-call override `0` the
transport is called with the default, not the override, because
`timeout if timeout else self._timeout` tests Python truthiness. -/
theorem c8_counterexample :
    (Svc.mkArgs ⟨("http://svc/").toList, none, none, some (Timeout.pair 3 10)⟩ "GET"
        ("http://svc/").toList none none none (some (Timeout.scalar 0))).timeout ≠
      some (Timeout.scalar 0) := by decide

/-- C8 (amended): only `make_request` accepts a per-call timeout
override; the resolved timeout is the override when it is given and
truthy, and the client default when the override is absent or falsy.
The verb shortcuts (GET/POST/PUT/PATCH/DELETE) accept no timeout
parameter and always invoke `make_request` with no override, hence with
the client default. -/
theorem c8_timeout_resolution (c : Svc.ServiceState) (method : String) (url : List Char)
    (q : Option Query) (d : Option BodyData) (hd : Option Headers) :
    (∀ t : Timeout, t.truthy = true →
      (Svc.mkArgs c method url q d hd (some t)).timeout = some t) ∧
    (∀ t : Timeout, t.truthy = false →
      (Svc.mkArgs c method url q d hd (some t)).timeout = c.timeout) ∧
    (Svc.mkArgs c method url q d hd none).timeout = c.timeout ∧
    (∀ (fuel : Nat) (requestor : RequestArgs → Response) (path : List Char)
        (ps : Params) (re : Bool),
      Svc.get fuel c requestor path ps q hd re =
        Svc.make_request fuel c requestor "GET" path ps q none hd none re ∧
      Svc.post fuel c requestor path ps d hd re =
        Svc.make_request fuel c requestor "POST" path ps none d hd none re ∧
      Svc.put fuel c requestor path ps d hd re =
        Svc.make_request fuel c requestor "PUT" path ps none d hd none re ∧
      Svc.patch fuel c requestor path ps d hd re =
        Svc.make_request fuel c requestor "PATCH" path ps none d hd none re ∧
      Svc.delete fuel c requestor path ps hd re =
        Svc.make_request fuel c requestor "DELETE" path ps none none hd none re) := by
  refine ⟨?_, ?_, rfl, fun _ _ _ _ _ => ⟨rfl, rfl, rfl, rfl, rfl⟩⟩
  · intro t ht
    simp [Svc.mkArgs, resolveTimeout, ht]
  · intro t ht
    simp [Svc.mkArgs, resolveTimeout, ht]

/-- C8, witness: a truthy override `(3, 10)` is applied as given. -/
theorem c8_timeout_resolution_witness :
    (Timeout.pair 3 10).truthy = true ∧
    (Svc.mkArgs ⟨("http://svc/").toList, none, none, none⟩ "GET"
        ("http://svc/").toList none none none (some (Timeout.pair 3 10))).timeout =
      some (Timeout.pair 3 10) :=
  ⟨by decide,
    (c8_timeout_resolution ⟨("http://svc/").toList, none, none, none⟩ "GET"
        ("http://svc/").toList none none none).1 (Timeout.pair 3 10) (by decide)⟩

/-! ### Claim C9 -/

/-- C9: calling `_build_url` (and hence any verb method, here `get`)
with the path consisting of exactly one separator strips the leading
separator, leaves the empty string and then indexes `path[-1]` on it:
an uncaught `IndexError`, never a url. -/
theorem c9_separator_path_index_error :
    ∀ (fuel : Nat) (root : List Char) (ps : Params) (c : Svc.ServiceState)
      (requestor : RequestArgs → Response) (q : Option Query) (hd : Option Headers)
      (re : Bool),
      Svc.build_url fuel root ['/'] ps = .indexError ∧
      Svc.get fuel c requestor ['/'] ps q hd re = .indexError :=
  fun _ _ _ _ _ _ _ _ => ⟨rfl, rfl⟩

/-! ### Claim C10 -/

/-- C10: constructing a client with the empty root fails in the
`url_root` setter (`value[-1]` raises `IndexError`); in particular a
factory whose `service_root` is left at the default empty string can
never construct a service. -/
theorem c10_empty_root_index_error :
    Svc.url_root_set [] = none ∧
    (∀ (session : Option Nat) (auth : Option Auth) (timeout : Option Timeout),
      Svc.mkService [] session auth timeout = none) ∧
    (∀ (name : String) (auth : Option Auth) (st : Svc.CacheState),
      (Svc.make_service name Svc.factoryDefaultRoot auth st).1 = none) := by
  refine ⟨rfl, fun _ _ _ => rfl, fun name auth st => ?_⟩
  unfold Svc.make_service
  cases Svc.cacheGet st name <;> rfl

/-! ### Claim C4 -/

theorem cli_svc_url_root_set (v : List Char) :
    Cli.url_root_set v = Svc.url_root_set v := by
  rw [Cli.url_root_set, Svc.url_root_set]

theorem cli_svc_normalizePath (p : List Char) :
    Cli.normalizePath p = Svc.normalizePath p := by
  rw [Cli.normalizePath.eq_def, Svc.normalizePath.eq_def]

theorem cli_svc_paramStr (ps : Params) (k : List Char) :
    Cli.paramStr ps k = Svc.paramStr ps k := by
  rw [Cli.paramStr, Svc.paramStr]

theorem cli_svc_substLoop (ps : Params) :
    ∀ (fuel : Nat) (url : List Char), Cli.substLoop ps fuel url = Svc.substLoop ps fuel url := by
  intro fuel
  induction fuel with
  | zero => intro url; rfl
  | succ f ih =>
    intro url
    rw [Cli.substLoop, Svc.substLoop]
    cases pyFind '{' url with
    | none => rfl
    | some start =>
      dsimp only
      cases pyFindFrom '}' url start with
      | none => rfl
      | some stop =>
        dsimp only
        rw [cli_svc_paramStr]
        exact ih _

theorem cli_svc_build_url (fuel : Nat) (root path : List Char) (ps : Params) :
    Cli.build_url fuel root path ps = Svc.build_url fuel root path ps := by
  rw [Cli.build_url, Svc.build_url, cli_svc_normalizePath]
  cases Svc.normalizePath path with
  | none => rfl
  | some p =>
    dsimp only
    rw [Cli.substOutcome, Svc.substOutcome, cli_svc_substLoop]

/-- C4: `HttpClient` and `HttpService` are behaviourally equivalent: on
every input `_build_url` returns the same result, the dispatchers hand
the transport the same argument tuple, and `make_request` produces the
same outcome up to the constructor-wise renaming of the exception type
(`relabel`). -/
theorem c4_client_service_equivalent :
    ∀ (fuel : Nat) (root path url : List Char) (ps : Params)
      (session : Option Nat) (auth : Option Auth) (tdef : Option Timeout)
      (requestor : RequestArgs → Response) (method : String)
      (q : Option Query) (d : Option BodyData) (hd : Option Headers)
      (t : Option Timeout) (re : Bool),
      Cli.build_url fuel root path ps = Svc.build_url fuel root path ps ∧
      Cli.mkArgs ⟨root, session, auth, tdef⟩ method url q d hd t =
        Svc.mkArgs ⟨root, session, auth, tdef⟩ method url q d hd t ∧
      Cli.make_request fuel ⟨root, session, auth, tdef⟩ requestor method path ps
          q d hd t re =
        relabel (Svc.make_request fuel ⟨root, session, auth, tdef⟩ requestor method
          path ps q d hd t re) := by
  intro fuel root path url ps session auth tdef requestor method q d hd t re
  refine ⟨cli_svc_build_url fuel root path ps, rfl, ?_⟩
  rw [Cli.make_request, Svc.make_request, cli_svc_build_url]
  cases Svc.build_url fuel root path ps with
  | ok u =>
    dsimp only
    rw [show Cli.mkArgs ⟨root, session, auth, tdef⟩ method u q d hd t =
      Svc.mkArgs ⟨root, session, auth, tdef⟩ method u q d hd t from rfl]
    split <;> rfl
  | indexError => rfl
  | noFuel => rfl

/-! ### Claim C2 -/

/-- C2: whenever `_build_url` produces a url, `make_request` raises a
`ServiceException` carrying the full transport response exactly when the
response status code is `≥ 300` and raising is enabled; in every other
case it returns the transport's response unmodified. -/
theorem c2_raise_iff (fuel : Nat) (c : Svc.ServiceState)
    (requestor : RequestArgs → Response) (method : String) (path : List Char)
    (ps : Params) (q : Option Query) (d : Option BodyData) (hd : Option Headers)
    (t : Option Timeout) (re : Bool) (url : List Char)
    (hurl : Svc.build_url fuel c.url_root path ps = .ok url) :
    (Svc.make_request fuel c requestor method path ps q d hd t re =
        .err ⟨requestor (Svc.mkArgs c method url q d hd t)⟩ ↔
      300 ≤ (requestor (Svc.mkArgs c method url q d hd t)).status_code ∧ re = true) ∧
    (¬(300 ≤ (requestor (Svc.mkArgs c method url q d hd t)).status_code ∧ re = true) →
      Svc.make_request fuel c requestor method path ps q d hd t re =
        .ok (requestor (Svc.mkArgs c method url q d hd t))) := by
  rw [Svc.make_request, hurl]
  dsimp only
  constructor
  · constructor
    · intro he
      by_contra hc
      rw [if_neg hc] at he
      exact Svc.ReqResult.noConfusion he
    · intro hc
      rw [if_pos hc]
  · intro hc
    rw [if_neg hc]

/-- C2, witness: a 404 with raising enabled raises the wrapped response. -/
theorem c2_raise_iff_witness :
    Svc.build_url 1
        ((⟨("http://svc/").toList, none, none, none⟩ : Svc.ServiceState).url_root)
        [] [] = .ok ("http://svc/").toList ∧
    ((Svc.make_request 1 ⟨("http://svc/").toList, none, none, none⟩
          (fun _ => ⟨404, []⟩) "GET" [] [] none none none none true =
        .err ⟨(fun (_ : RequestArgs) => (⟨404, []⟩ : Response))
          (Svc.mkArgs ⟨("http://svc/").toList, none, none, none⟩ "GET"
            ("http://svc/").toList none none none none)⟩ ↔
      300 ≤ ((fun (_ : RequestArgs) => (⟨404, []⟩ : Response))
          (Svc.mkArgs ⟨("http://svc/").toList, none, none, none⟩ "GET"
            ("http://svc/").toList none none none none)).status_code ∧ true = true) ∧
    (¬(300 ≤ ((fun (_ : RequestArgs) => (⟨404, []⟩ : Response))
          (Svc.mkArgs ⟨("http://svc/").toList, none, none, none⟩ "GET"
            ("http://svc/").toList none none none none)).status_code ∧ true = true) →
      Svc.make_request 1 ⟨("http://svc/").toList, none, none, none⟩
          (fun _ => ⟨404, []⟩) "GET" [] [] none none none none true =
        .ok ((fun (_ : RequestArgs) => (⟨404, []⟩ : Response))
          (Svc.mkArgs ⟨("http://svc/").toList, none, none, none⟩ "GET"
            ("http://svc/").toList none none none none)))) :=
  ⟨by decide,
    c2_raise_iff 1 ⟨("http://svc/").toList, none, none, none⟩ (fun _ => ⟨404, []⟩)
      "GET" [] [] none none none none true ("http://svc/").toList (by decide)⟩

/-! ### Claim C5 -/

/-- C5: from any cache state satisfying the cache invariant, two factory
invocations with the same client type name return services bound to the
identical session, and invocations with two different type names bind to
distinct sessions. -/
theorem c5_session_reuse (st : Svc.CacheState) (n1 n2 : String) (r1 r2 : List Char)
    (a1 a2 : Option Auth) (hinv : CacheInv st) (h1 : r1 ≠ []) (h2 : r2 ≠ []) :
    ∃ c1 c2 : Svc.ServiceState,
      (Svc.make_service n1 r1 a1 st).1 = some c1 ∧
      (Svc.make_service n2 r2 a2 (Svc.make_service n1 r1 a1 st).2).1 = some c2 ∧
      (n1 = n2 → c1.session = c2.session) ∧
      (n1 ≠ n2 → c1.session ≠ c2.session) := by
  obtain ⟨hbound, hinj⟩ := hinv
  cases hc1 : dictGet st.sessions n1 with
  | some s1 =>
    obtain ⟨c1, hc1e, hs1⟩ := mkService_of_ne_nil h1 (some s1) a1 none
    cases hc2 : dictGet st.sessions n2 with
    | some s2 =>
      obtain ⟨c2, hc2e, hs2⟩ := mkService_of_ne_nil h2 (some s2) a2 none
      refine ⟨c1, c2, ?_, ?_, ?_, ?_⟩
      · simp [Svc.make_service, Svc.cacheGet, hc1, hc1e]
      · simp [Svc.make_service, Svc.cacheGet, hc1, hc2, hc2e]
      · intro hn
        subst hn
        rw [hc1] at hc2
        cases hc2
        rw [hs1, hs2]
      · intro hn hss
        have m1 := dictGet_mem (l := st.sessions) (k := n1) hc1
        have m2 := dictGet_mem (l := st.sessions) (k := n2) hc2
        have hne : s1 ≠ s2 := hinj _ m1 _ m2 hn
        rw [hs1, hs2] at hss
        exact hne (Option.some.inj hss)
    | none =>
      obtain ⟨c2, hc2e, hs2⟩ := mkService_of_ne_nil h2 (some st.nextId) a2 none
      refine ⟨c1, c2, ?_, ?_, ?_, ?_⟩
      · simp [Svc.make_service, Svc.cacheGet, hc1, hc1e]
      · simp [Svc.make_service, Svc.cacheGet, Svc.cacheSet, hc1, hc2, hc2e]
      · intro hn
        subst hn
        rw [hc1] at hc2
        cases hc2
      · intro hn hss
        have m1 := dictGet_mem (l := st.sessions) (k := n1) hc1
        have hlt : s1 < st.nextId := hbound _ m1
        rw [hs1, hs2] at hss
        exact absurd (Option.some.inj hss) (Nat.ne_of_lt hlt)
  | none =>
    obtain ⟨c1, hc1e, hs1⟩ := mkService_of_ne_nil h1 (some st.nextId) a1 none
    by_cases hn : n1 = n2
    · subst hn
      obtain ⟨c2, hc2e, hs2⟩ := mkService_of_ne_nil h2 (some st.nextId) a2 none
      refine ⟨c1, c2, ?_, ?_, fun _ => ?_, fun hne => absurd rfl hne⟩
      · simp [Svc.make_service, Svc.cacheGet, hc1, hc1e]
      · simp [Svc.make_service, Svc.cacheGet, Svc.cacheSet, hc1, dictGet, hc2e]
      · rw [hs1, hs2]
    · cases hc2 : dictGet st.sessions n2 with
      | some s2 =>
        obtain ⟨c2, hc2e, hs2⟩ := mkService_of_ne_nil h2 (some s2) a2 none
        refine ⟨c1, c2, ?_, ?_, fun h => absurd h hn, fun _ hss => ?_⟩
        · simp [Svc.make_service, Svc.cacheGet, hc1, hc1e]
        · simp [Svc.make_service, Svc.cacheGet, Svc.cacheSet, hc1, dictGet,
            hn, hc2, hc2e]
        · have m2 := dictGet_mem (l := st.sessions) (k := n2) hc2
          have hlt : s2 < st.nextId := hbound _ m2
          rw [hs1, hs2] at hss
          exact absurd (Option.some.inj hss).symm (Nat.ne_of_lt hlt)
      | none =>
        obtain ⟨c2, hc2e, hs2⟩ := mkService_of_ne_nil h2 (some (st.nextId + 1)) a2 none
        refine ⟨c1, c2, ?_, ?_, fun h => absurd h hn, fun _ hss => ?_⟩
        · simp [Svc.make_service, Svc.cacheGet, hc1, hc1e]
        · simp [Svc.make_service, Svc.cacheGet, Svc.cacheSet, hc1, dictGet,
            hn, hc2, hc2e]
        · rw [hs1, hs2] at hss
          exact absurd (Option.some.inj hss) (Nat.ne_of_lt (Nat.lt_succ_self _))

/-- C5, witness: from the initial empty cache, factories named `SvcA`
and `SvcB` bind their services to distinct sessions. -/
theorem c5_session_reuse_witness :
    CacheInv ⟨[], 0⟩ ∧ ("http://a").toList ≠ [] ∧ ("http://b").toList ≠ [] ∧
    ∃ c1 c2 : Svc.ServiceState,
      (Svc.make_service "SvcA" ("http://a").toList none ⟨[], 0⟩).1 = some c1 ∧
      (Svc.make_service "SvcB" ("http://b").toList none
          (Svc.make_service "SvcA" ("http://a").toList none ⟨[], 0⟩).2).1 = some c2 ∧
      ("SvcA" = "SvcB" → c1.session = c2.session) ∧
      ("SvcA" ≠ "SvcB" → c1.session ≠ c2.session) :=
  ⟨by decide, by decide, by decide,
    c5_session_reuse ⟨[], 0⟩ "SvcA" "SvcB" ("http://a").toList ("http://b").toList
      none none (by decide) (by decide) (by decide)⟩

/-! ### Claim C7: lemmas about `replaceAll` -/

theorem replaceAllF_fuel (pat rep : List Char) :
    ∀ (f g : Nat) (s : List Char), s.length ≤ f → s.length ≤ g →
      replaceAllF pat rep f s = replaceAllF pat rep g s := by
  intro f
  induction f with
  | zero =>
    intro g s hf _
    have hs : s = [] := List.length_eq_zero.mp (Nat.le_zero.mp hf)
    subst hs
    cases g <;> rfl
  | succ f ih =>
    intro g s hf hg
    cases s with
    | nil => cases g <;> rfl
    | cons c srest =>
      cases g with
      | zero => simp at hg
      | succ g' =>
        rw [replaceAllF, replaceAllF]
        by_cases hcond : pat ≠ [] ∧ pat.isPrefixOf (c :: srest)
        · rw [if_pos hcond, if_pos hcond]
          have hp : 1 ≤ pat.length := by
            cases hpat : pat with
            | nil => exact absurd hpat hcond.1
            | cons _ _ => simp
          have hl : ((c :: srest).drop pat.length).length ≤ f := by
            rw [List.length_drop]
            simp only [List.length_cons]
            simp only [List.length_cons] at hf
            omega
          have hl' : ((c :: srest).drop pat.length).length ≤ g' := by
            rw [List.length_drop]
            simp only [List.length_cons]
            simp only [List.length_cons] at hg
            omega
          rw [ih g' _ hl hl']
        · rw [if_neg hcond, if_neg hcond]
          simp only [List.length_cons] at hf hg
          rw [ih g' srest (by omega) (by omega)]

theorem replaceAll_nil (pat rep : List Char) : replaceAll pat rep [] = [] := rfl

theorem replaceAll_cons (pat rep : List Char) (c : Char) (s : List Char) :
    replaceAll pat rep (c :: s) =
      if pat ≠ [] ∧ pat.isPrefixOf (c :: s) then
        rep ++ replaceAll pat rep ((c :: s).drop pat.length)
      else c :: replaceAll pat rep s := by
  rw [replaceAll, List.length_cons, replaceAllF]
  by_cases hcond : pat ≠ [] ∧ pat.isPrefixOf (c :: s)
  · rw [if_pos hcond, if_pos hcond]
    have hp : 1 ≤ pat.length := by
      cases hpat : pat with
      | nil => exact absurd hpat hcond.1
      | cons _ _ => simp
    rw [replaceAll]
    rw [replaceAllF_fuel pat rep s.length ((c :: s).drop pat.length).length _
      (by rw [List.length_drop]; simp only [List.length_cons]; omega) (le_refl _)]
  · rw [if_neg hcond, if_neg hcond, replaceAll]

theorem replaceAll_append_no_head (p0 : Char) (pr rep : List Char) :
    ∀ (a b : List Char), (∀ c ∈ a, c ≠ p0) →
      replaceAll (p0 :: pr) rep (a ++ b) = a ++ replaceAll (p0 :: pr) rep b := by
  intro a
  induction a with
  | nil => intro b _; simp
  | cons c arest ih =>
    intro b ha
    have hc : c ≠ p0 := ha c (List.mem_cons_self _ _)
    rw [List.cons_append, replaceAll_cons]
    have hnot : ¬ ((p0 :: pr) ≠ [] ∧ (p0 :: pr).isPrefixOf (c :: (arest ++ b))) := by
      rintro ⟨-, hpre⟩
      obtain ⟨t, ht⟩ := List.isPrefixOf_iff_prefix.mp hpre
      rw [List.cons_append] at ht
      exact hc (List.head_eq_of_cons_eq ht).symm
    rw [if_neg hnot, ih b (fun x hx => ha x (List.mem_cons_of_mem _ hx)), List.cons_append]

theorem count_replaceAll_le (pat rep : List Char) (x : Char) (hrep : x ∉ rep) :
    ∀ (f : Nat) (s : List Char),
      List.count x (replaceAllF pat rep f s) ≤ List.count x s := by
  intro f
  induction f with
  | zero => intro s; exact le_refl _
  | succ f ih =>
    intro s
    cases s with
    | nil => exact le_refl _
    | cons c srest =>
      rw [replaceAllF]
      by_cases hcond : pat ≠ [] ∧ pat.isPrefixOf (c :: srest)
      · rw [if_pos hcond, List.count_append, List.count_eq_zero.mpr hrep, Nat.zero_add]
        calc List.count x (replaceAllF pat rep f ((c :: srest).drop pat.length))
            ≤ List.count x ((c :: srest).drop pat.length) := ih _
          _ ≤ List.count x (c :: srest) := (List.drop_sublist _ _).count_le x
      · rw [if_neg hcond, List.count_cons, List.count_cons]
        exact Nat.add_le_add_right (ih srest) _

theorem count_replaceAll_lt (pat rep : List Char) (x : Char) (hrep : x ∉ rep)
    (hx : x ∈ pat) :
    ∀ (a b : List Char),
      List.count x (replaceAll pat rep (a ++ (pat ++ b))) <
        List.count x (a ++ (pat ++ b)) := by
  have hcpat : 0 < List.count x pat := List.count_pos_iff.mpr hx
  obtain ⟨p0, pr, rfl⟩ : ∃ p0 pr, pat = p0 :: pr := by
    cases pat with
    | nil => cases hx
    | cons p0 pr => exact ⟨p0, pr, rfl⟩
  intro a
  induction a with
  | nil =>
    intro b
    simp only [List.nil_append]
    rw [List.cons_append, replaceAll_cons]
    have hcond : (p0 :: pr) ≠ [] ∧ (p0 :: pr).isPrefixOf (p0 :: (pr ++ b)) := by
      refine ⟨by simp, List.isPrefixOf_iff_prefix.mpr ⟨b, by simp⟩⟩
    rw [if_pos hcond]
    have hdrop : (p0 :: (pr ++ b)).drop (p0 :: pr).length = b := by
      rw [show p0 :: (pr ++ b) = (p0 :: pr) ++ b from by simp, List.drop_left]
    rw [hdrop, List.count_append, List.count_eq_zero.mpr hrep, Nat.zero_add]
    have h1 : List.count x (replaceAll (p0 :: pr) rep b) ≤ List.count x b := by
      rw [replaceAll]
      exact count_replaceAll_le _ _ _ hrep _ _
    have h2 : List.count x (p0 :: (pr ++ b)) =
        List.count x (p0 :: pr) + List.count x b := by
      rw [show p0 :: (pr ++ b) = (p0 :: pr) ++ b from by simp, List.count_append]
    rw [h2]
    omega
  | cons c arest ih =>
    intro b
    rw [List.cons_append, replaceAll_cons]
    by_cases hcond : (p0 :: pr) ≠ [] ∧
        (p0 :: pr).isPrefixOf (c :: (arest ++ ((p0 :: pr) ++ b)))
    · rw [if_pos hcond]
      obtain ⟨t, ht⟩ := List.isPrefixOf_iff_prefix.mp hcond.2
      have hdrop : (c :: (arest ++ ((p0 :: pr) ++ b))).drop (p0 :: pr).length = t := by
        rw [← ht, List.drop_left]
      rw [hdrop, List.count_append, List.count_eq_zero.mpr hrep, Nat.zero_add]
      have h1 : List.count x (replaceAll (p0 :: pr) rep t) ≤ List.count x t := by
        rw [replaceAll]
        exact count_replaceAll_le _ _ _ hrep _ _
      have h2 : List.count x (c :: (arest ++ ((p0 :: pr) ++ b))) =
          List.count x (p0 :: pr) + List.count x t := by
        rw [← ht, List.count_append]
      rw [h2]
      omega
    · rw [if_neg hcond, List.count_cons, List.count_cons]
      exact Nat.add_lt_add_right (ih b) _

/-! ### Claim C7: lemmas about the brace scanner and `pyFind` -/

theorem scanBraced_append_outside (a : List Char) (ha : ∀ c ∈ a, c ≠ '{') :
    ∀ s, scanBraced false (a ++ s) = scanBraced false s := by
  induction a with
  | nil => intro s; rfl
  | cons c arest ih =>
    intro s
    have hc : c ≠ '{' := ha c (List.mem_cons_self _ _)
    rw [List.cons_append]
    show (if c = '{' then scanBraced true (arest ++ s)
      else scanBraced false (arest ++ s)) = _
    rw [if_neg hc]
    exact ih (fun x hx => ha x (List.mem_cons_of_mem _ hx)) s

theorem scanBraced_inside_walk :
    ∀ (k t : List Char), (∀ c ∈ k, c ≠ '{' ∧ c ≠ '}') →
      scanBraced true (k ++ '}' :: t) = scanBraced false t := by
  intro k
  induction k with
  | nil =>
    intro t _
    show (if '}' = '}' then scanBraced false t
      else if '}' = '{' then false else scanBraced true t) = _
    rw [if_pos rfl]
  | cons c krest ih =>
    intro t hk
    obtain ⟨hc1, hc2⟩ := hk c (List.mem_cons_self _ _)
    rw [List.cons_append]
    show (if c = '}' then scanBraced false (krest ++ '}' :: t)
      else if c = '{' then false else scanBraced true (krest ++ '}' :: t)) = _
    rw [if_neg hc2, if_neg hc1]
    exact ih t (fun x hx => hk x (List.mem_cons_of_mem _ hx))

theorem scanBraced_true_decomp :
    ∀ (s : List Char), scanBraced true s = true →
      ∃ k t, s = k ++ '}' :: t ∧ (∀ c ∈ k, c ≠ '{' ∧ c ≠ '}') ∧
        scanBraced false t = true := by
  intro s
  induction s with
  | nil => intro h; exact absurd h (by simp [scanBraced])
  | cons c srest ih =>
    intro h
    by_cases hc2 : c = '}'
    · subst hc2
      refine ⟨[], srest, rfl, by simp, ?_⟩
      simpa [scanBraced] using h
    · by_cases hc1 : c = '{'
      · subst hc1
        exact absurd h (by simp [scanBraced, hc2])
      · have h' : scanBraced true srest = true := by
          simpa [scanBraced, hc1, hc2] using h
        obtain ⟨k, t, rfl, hk, ht⟩ := ih h'
        refine ⟨c :: k, t, by rw [List.cons_append], ?_, ht⟩
        intro x hx
        rcases List.mem_cons.mp hx with hx | hx
        · subst hx
          exact ⟨hc1, hc2⟩
        · exact hk x hx

theorem pyFind_append_cons (x : Char) :
    ∀ (a b : List Char), (∀ c ∈ a, c ≠ x) →
      pyFind x (a ++ x :: b) = some a.length := by
  intro a
  induction a with
  | nil => intro b _; simp [pyFind]
  | cons c arest ih =>
    intro b ha
    have hc : c ≠ x := ha c (List.mem_cons_self _ _)
    rw [List.cons_append]
    show (if c = x then some 0 else (pyFind x (arest ++ x :: b)).map fun n => n + 1) = _
    rw [if_neg hc, ih b (fun d hd => ha d (List.mem_cons_of_mem _ hd))]
    simp [List.length_cons]

theorem pyFind_some_decomp :
    ∀ (s : List Char) (x : Char) (i : Nat), pyFind x s = some i →
      ∃ a b, s = a ++ x :: b ∧ a.length = i ∧ (∀ c ∈ a, c ≠ x) := by
  intro s
  induction s with
  | nil => intro x i h; exact absurd h (by simp [pyFind])
  | cons c srest ih =>
    intro x i h
    by_cases hc : c = x
    · subst hc
      have h0 : i = 0 := by simpa [pyFind] using h.symm
      subst h0
      exact ⟨[], srest, rfl, rfl, by simp⟩
    · rw [pyFind, if_neg hc, Option.map_eq_some'] at h
      obtain ⟨j, hj, rfl⟩ := h
      obtain ⟨a, b, rfl, rfl, ha⟩ := ih x j hj
      refine ⟨c :: a, b, by rw [List.cons_append], by simp, ?_⟩
      intro d hd
      rcases List.mem_cons.mp hd with hd | hd
      · subst hd
        exact hc
      · exact ha d hd

/-- Replacing every occurrence of a full placeholder `{k}` by brace-free
text preserves well-bracedness. -/
theorem scanBraced_replaceAll (k rep : List Char)
    (hk : ∀ c ∈ k, c ≠ '{' ∧ c ≠ '}') (hrep : '{' ∉ rep) :
    ∀ (n : Nat) (s : List Char), s.length ≤ n → scanBraced false s = true →
      scanBraced false (replaceAll ('{' :: (k ++ ['}'])) rep s) = true := by
  intro n
  induction n with
  | zero =>
    intro s hs h
    have hnil : s = [] := List.length_eq_zero.mp (Nat.le_zero.mp hs)
    subst hnil
    exact h
  | succ n ih =>
    intro s hs h
    cases s with
    | nil => exact h
    | cons c srest =>
      rw [replaceAll_cons]
      by_cases hcond : ('{' :: (k ++ ['}'])) ≠ [] ∧
          ('{' :: (k ++ ['}'])).isPrefixOf (c :: srest)
      · rw [if_pos hcond]
        obtain ⟨t, ht⟩ := List.isPrefixOf_iff_prefix.mp hcond.2
        have hdrop : (c :: srest).drop ('{' :: (k ++ ['}'])).length = t := by
          rw [← ht, List.drop_left]
        rw [hdrop, scanBraced_append_outside rep (fun d hd he => hrep (he ▸ hd))]
        have hst : scanBraced false t = true := by
          rw [← ht, List.cons_append] at h
          have h2 : scanBraced true ((k ++ ['}']) ++ t) = true := by
            simpa [scanBraced] using h
          rw [List.append_assoc, List.singleton_append,
            scanBraced_inside_walk k t hk] at h2
          exact h2
        apply ih t _ hst
        have hlen := congrArg List.length ht
        simp only [List.length_append, List.length_cons, List.length_nil] at hlen
        simp only [List.length_cons] at hs
        omega
      · rw [if_neg hcond]
        by_cases hc : c = '{'
        · subst hc
          have h' : scanBraced true srest = true := by simpa [scanBraced] using h
          obtain ⟨k', t', rfl, hk', ht'⟩ := scanBraced_true_decomp srest h'
          have hnh : ∀ d ∈ (k' ++ ['}']), d ≠ '{' := by
            intro d hd
            rcases List.mem_append.mp hd with hd | hd
            · exact (hk' d hd).1
            · simp only [List.mem_singleton] at hd
              subst hd
              decide
          have hskip : replaceAll ('{' :: (k ++ ['}'])) rep (k' ++ '}' :: t') =
              (k' ++ ['}']) ++ replaceAll ('{' :: (k ++ ['}'])) rep t' := by
            have hraw := replaceAll_append_no_head '{' (k ++ ['}']) rep
              (k' ++ ['}']) t' hnh
            rw [List.append_assoc, List.singleton_append] at hraw
            exact hraw
          rw [hskip]
          have hgoal : scanBraced true
              ((k' ++ ['}']) ++ replaceAll ('{' :: (k ++ ['}'])) rep t') = true := by
            rw [List.append_assoc, List.singleton_append,
              scanBraced_inside_walk k' _ hk']
            apply ih t' _ ht'
            simp only [List.length_cons, List.length_append] at hs
            omega
          simpa [scanBraced] using hgoal
        · have h' : scanBraced false srest = true := by
            simpa [scanBraced, hc] using h
          have hgoal : scanBraced false
              (replaceAll ('{' :: (k ++ ['}'])) rep srest) = true := by
            apply ih srest _ h'
            simp only [List.length_cons] at hs
            omega
          simpa [scanBraced, hc] using hgoal

/-- With fuel one more than the number of `{` characters, the
substitution loop of `services.py` finishes on every well-braced url
whose parameter values are brace-free, and its result has no `{` left. -/
theorem substLoop_terminates (ps : Params) (hps : paramsNoBrace ps = true) :
    ∀ (n : Nat) (url : List Char), List.count '{' url ≤ n → wellBraced url = true →
      ∃ r, Svc.substLoop ps (n + 1) url = some r ∧ pyFind '{' r = none := by
  intro n
  induction n with
  | zero =>
    intro url hc _
    have hnone : pyFind '{' url = none :=
      pyFind_eq_none.mpr (List.count_eq_zero.mp (Nat.le_zero.mp hc))
    refine ⟨url, ?_, hnone⟩
    rw [Svc.substLoop, hnone]
  | succ n ih =>
    intro url hc hw
    cases hf : pyFind '{' url with
    | none => exact ⟨url, by rw [Svc.substLoop, hf], hf⟩
    | some start =>
      obtain ⟨pre, rest0, hurl, hlen, hpre⟩ := pyFind_some_decomp url '{' start hf
      have hw1 : scanBraced true rest0 = true := by
        rw [wellBraced, hurl, scanBraced_append_outside pre hpre] at hw
        simpa [scanBraced] using hw
      obtain ⟨k, t, hrest, hk, ht⟩ := scanBraced_true_decomp rest0 hw1
      subst hrest
      subst hurl
      subst hlen
      have hdrop : (pre ++ '{' :: (k ++ '}' :: t)).drop pre.length =
          '{' :: (k ++ '}' :: t) := List.drop_left _ _
      have hstop : pyFindFrom '}' (pre ++ '{' :: (k ++ '}' :: t)) pre.length =
          some (k.length + 1 + pre.length) := by
        rw [pyFindFrom, hdrop]
        have hfk : pyFind '}' ('{' :: (k ++ '}' :: t)) = some (k.length + 1) := by
          have hcons : '{' :: (k ++ '}' :: t) = ('{' :: k) ++ '}' :: t := by
            rw [List.cons_append]
          rw [hcons, pyFind_append_cons '}' ('{' :: k) t ?hnb]
          · simp
          case hnb =>
            intro d hd
            rcases List.mem_cons.mp hd with hd | hd
            · subst hd
              decide
            · exact (hk d hd).2
        rw [hfk]
        rfl
      have hslice : pySlice (pre ++ '{' :: (k ++ '}' :: t)) pre.length
          (k.length + 1 + pre.length + 1) = '{' :: (k ++ ['}']) := by
        rw [pySlice, hdrop]
        have harith : k.length + 1 + pre.length + 1 - pre.length = k.length + 1 + 1 := by
          omega
        rw [harith, List.take_succ_cons]
        have hsplit : k ++ '}' :: t = (k ++ ['}']) ++ t := by
          rw [List.append_assoc, List.singleton_append]
        rw [hsplit]
        have htl : (k ++ ['}']).length = k.length + 1 := by
          simp
        rw [show k.length + 1 = (k ++ ['}']).length from htl.symm, List.take_left]
      have hkey : (((('{' :: (k ++ ['}']))).drop 1).dropLast) = k := by
        simp [List.dropLast_concat]
      have hparam : '{' ∉ Svc.paramStr ps k := by
        rw [Svc.paramStr]
        cases hg : dictGet ps k with
        | none => decide
        | some ov =>
          cases ov with
          | none => decide
          | some v =>
            have hm := dictGet_mem (l := ps) (k := k) hg
            have hv := List.all_eq_true.mp hps _ hm
            simp only [Bool.not_eq_true'] at hv
            simpa [List.contains] using hv
      have hrepnb : '{' ∉ (if Svc.paramStr ps k ≠ [] then Svc.paramStr ps k else []) := by
        split
        · exact hparam
        · simp
      have hstep : Svc.substLoop ps (n + 1 + 1) (pre ++ '{' :: (k ++ '}' :: t)) =
          Svc.substLoop ps (n + 1) (replaceAll ('{' :: (k ++ ['}']))
            (if Svc.paramStr ps k ≠ [] then Svc.paramStr ps k else [])
            (pre ++ '{' :: (k ++ '}' :: t))) := by
        rw [Svc.substLoop, hf]
        dsimp only
        rw [hstop]
        dsimp only
        rw [hslice, hkey]
      have hshape : pre ++ '{' :: (k ++ '}' :: t) =
          pre ++ (('{' :: (k ++ ['}'])) ++ t) := by
        simp
      have hcount : List.count '{' (replaceAll ('{' :: (k ++ ['}']))
            (if Svc.paramStr ps k ≠ [] then Svc.paramStr ps k else [])
            (pre ++ '{' :: (k ++ '}' :: t))) <
          List.count '{' (pre ++ '{' :: (k ++ '}' :: t)) := by
        rw [hshape]
        exact count_replaceAll_lt _ _ '{' hrepnb (List.mem_cons_self _ _) pre t
      have hwb' : wellBraced (replaceAll ('{' :: (k ++ ['}']))
            (if Svc.paramStr ps k ≠ [] then Svc.paramStr ps k else [])
            (pre ++ '{' :: (k ++ '}' :: t))) = true :=
        scanBraced_replaceAll k _ hk hrepnb _ _ (le_refl _) hw
      obtain ⟨r, hr, hrf⟩ := ih _ (by omega) hwb'
      exact ⟨r, by rw [hstep]; exact hr, hrf⟩

/-- C7: for every root URL and path template such that every `{` in the
pre-substitution url is followed by a matching `}` (no second `{` in
between) and no substituted parameter value itself contains `{`, the
placeholder-substitution loop of `_build_url` terminates — fuel one more
than the number of `{` characters suffices — and the returned string
contains no remaining `{`. -/
theorem c7_substitution_terminates (root path p : List Char) (ps : Params)
    (hnp : Svc.normalizePath path = some p)
    (hwb : wellBraced (root ++ p) = true)
    (hps : paramsNoBrace ps = true) :
    ∃ r, Svc.build_url (List.count '{' (root ++ p) + 1) root path ps = .ok r ∧
      pyFind '{' r = none := by
  obtain ⟨r, hr, hrf⟩ := substLoop_terminates ps hps (List.count '{' (root ++ p))
    (root ++ p) (le_refl _) hwb
  refine ⟨r, ?_, hrf⟩
  rw [Svc.build_url, hnp]
  dsimp only
  rw [Svc.substOutcome, hr]

/-- C7, witness: the loop finishes on root `http://svc/`, template
`/x/{id}/` and the parameter `id = 7`. -/
theorem c7_substitution_terminates_witness :
    Svc.normalizePath (("/x/{id}/").toList) = some (("x/{id}/").toList) ∧
    wellBraced (("http://svc/").toList ++ ("x/{id}/").toList) = true ∧
    paramsNoBrace [(("id").toList, some (("7").toList))] = true ∧
    ∃ r, Svc.build_url
        (List.count '{' (("http://svc/").toList ++ ("x/{id}/").toList) + 1)
        ("http://svc/").toList ("/x/{id}/").toList
        [(("id").toList, some (("7").toList))] = .ok r ∧
      pyFind '{' r = none :=
  ⟨by decide, by decide, by decide,
    c7_substitution_terminates ("http://svc/").toList ("/x/{id}/").toList
      ("x/{id}/").toList [(("id").toList, some (("7").toList))]
      (by decide) (by decide) (by decide)⟩
